import Mathlib

/-!
Verification of the document-distribution and index-build coordination layer of
pyterrier (file pyterrier/terrier/index.py).  The Python functions relevant to
the claims are embedded shallowly: document records become association lists,
the validator and field projector become pure functions returning explicit
error values, and the fifo distributor becomes a recursive function driven by a
readiness oracle standing for the select system call.
-/

set_option autoImplicit false

namespace PyTerrier

/-- A value stored in a pre-tokenised token-frequency mapping (value of the
toks column).  Upstream producers may leak Python ints, floats or strings. -/
inductive TokVal where
  | pyint (i : Int)
  | pyfloat (q : Rat)
  | pystr (s : String)
  deriving DecidableEq

/-- Whether a token-frequency value is an integer. -/
def TokVal.isInt : TokVal → Bool
  | .pyint _ => true
  | _ => false

/-- A field value of a document record: either a string, or a token-frequency
sub-mapping (the toks column used in pretokenised mode). -/
inductive FieldVal where
  | str (s : String)
  | toks (m : List (String × TokVal))
  deriving DecidableEq

/-- Python len() of a field value: string length, or number of keys of a
token mapping. -/
def FieldVal.len : FieldVal → Nat
  | .str s => s.length
  | .toks m => m.length

/-- A document record: a Python dict from field name to value, modelled as an
association list in insertion order. -/
abbrev Doc := List (String × FieldVal)

/-- An arbitrary object handed to the indexer: a dict-like record, or
something else (the type name is kept for the error message).
_is_dict in index.py distinguishes the two. -/
inductive PyObj where
  | dict (d : Doc)
  | nondict (typeName : String)
  deriving DecidableEq

/-- Python dict lookup (first matching key wins; a dict has unique keys, so
for lists built from dicts this is exact). -/
def pyLookup : Doc → String → Option FieldVal
  | [], _ => none
  | (k, v) :: rest, f => if k = f then some v else pyLookup rest f

/-- Python list(obj.keys()). -/
def pyKeys (d : Doc) : List String := d.map Prod.fst

/-- The fatal validation errors raised by _validate_doc_dict in index.py:
the non-dict TypeError, the missing-meta-key ValueError, and the
docno-too-long ValueError. -/
inductive ValErr where
  | typeErr (typeName : String)
  | missingField (key : String) (availableKeys : List String)
  | idTooLong (key : String) (bound actual : Nat)
  deriving DecidableEq

/-- A non-fatal warning emitted by _validate_doc_dict for a non-docno meta
field whose value exceeds the configured length: it names the field, the
requested bound and the actual length. -/
structure MetaWarning where
  key : String
  bound : Nat
  actual : Nat
  deriving DecidableEq

/-- The meta-key loop of _validate_doc_dict (index.py lines 627-639): for each
configured (key, bound) pair in order, a missing key raises; a too-long value
raises for docno and otherwise emits a warning and continues.  The result is
the list of warnings emitted before termination, paired with the raised error
if any. -/
def validateMeta : List (String × Nat) → Doc → List MetaWarning × Option ValErr
  | [], _ => ([], none)
  | (k, b) :: rest, d =>
    match pyLookup d k with
    | none => ([], some (.missingField k (pyKeys d)))
    | some v =>
      if b < v.len then
        if k = "docno" then ([], some (.idTooLong k b v.len))
        else ((⟨k, b, v.len⟩ : MetaWarning) :: (validateMeta rest d).1, (validateMeta rest d).2)
      else validateMeta rest d

/-- _validate_doc_dict (index.py lines 621-639): a non-dict object raises the
type error, a dict goes through the meta-key loop. -/
def validate_doc_dict (meta : List (String × Nat)) (obj : PyObj) :
    List MetaWarning × Option ValErr :=
  match obj with
  | .nondict t => ([], some (.typeErr t))
  | .dict d => validateMeta meta d

/-- The column set of _filter_iterable: union of docno, the text attributes
and the configured meta keys (a Python set; modelled as a deduplicated list). -/
def allCols (text_attrs : List String) (meta : List (String × Nat)) : List String :=
  ("docno" :: (text_attrs ++ meta.map Prod.fst)).dedup

/-- The per-record projection of _filter_iterable: the dict comprehension
over all_cols; a missing column raises KeyError when the record is consumed. -/
def projectFields (d : Doc) : List String → Except String Doc
  | [] => .ok []
  | f :: rest =>
    match pyLookup d f with
    | none => .error ("KeyError: " ++ f)
    | some v =>
      match projectFields d rest with
      | .error e => .error e
      | .ok pd => .ok ((f, v) :: pd)

/-- Projection of one stream element; a non-dict element fails when consumed. -/
def projectDoc (cols : List String) : PyObj → Except String Doc
  | .nondict t => .error ("TypeError: " ++ t)
  | .dict d => projectFields d cols

/-- The number of source elements consumed eagerly by _filter_iterable at call
time: more_itertools.spy buffers exactly one element (none for an empty
source). -/
def spyConsumed (docs : List PyObj) : Nat := (docs.take 1).length

/-- _filter_iterable (index.py lines 603-616): peek at the first record via
spy, validate it eagerly, and return the lazily-projected stream.  A fatal
validation error is raised at call time (the outer error); per-record
projection failures happen only when the corresponding element is consumed
(the inner errors). -/
def filter_iterable (text_attrs : List String) (meta : List (String × Nat))
    (docs : List PyObj) : Except ValErr (List (Except String Doc)) :=
  match docs with
  | [] => .ok []
  | d0 :: _ =>
    match (validate_doc_dict meta d0).2 with
    | some e => .error e
    | none => .ok (docs.map (projectDoc (allCols text_attrs meta)))

/-- Truncation of a rational toward zero, the behaviour of Python int() on a
float. -/
def ratTrunc (q : Rat) : Int :=
  if 0 ≤ q.num then ((q.num.toNat / q.den : Nat) : Int)
  else -((((-q.num).toNat / q.den : Nat)) : Int)

/-- Python int(v) applied to a token-frequency value: the identity on ints,
truncation toward zero on floats, decimal parsing on strings (raising on a
non-numeric literal). -/
def pyInt : TokVal → Except String Int
  | .pyint i => .ok i
  | .pyfloat q => .ok (ratTrunc q)
  | .pystr s =>
    match s.toInt? with
    | some i => .ok i
    | none => .error ("invalid literal for int: " ++ s)

/-- The dict comprehension in _write_fifos that casts every token-frequency
value to an integer; the first failing cast raises. -/
def castTokVals : List (String × TokVal) → Except String (List (String × TokVal))
  | [] => .ok []
  | (k, v) :: rest =>
    match pyInt v with
    | .error e => .error e
    | .ok i =>
      match castTokVals rest with
      | .error e => .error e
      | .ok m => .ok ((k, TokVal.pyint i) :: m)

/-- Python dict assignment for an existing key: replaces the value in place,
keeping the key order. -/
def setKey (d : Doc) (k : String) (v : FieldVal) : Doc :=
  d.map (fun kv => if kv.1 = k then (k, v) else kv)

/-- The per-record toks handling of _write_fifos (index.py lines 807-808):
if the record has a toks key, every value of that sub-mapping is cast via
int() before the record is serialized; a toks value that is not a mapping, or
a non-numeric frequency, raises in the distributor thread. -/
def castToks (d : Doc) : Except String Doc :=
  match pyLookup d "toks" with
  | none => .ok d
  | some (FieldVal.str _) => .error "AttributeError: toks value has no items"
  | some (FieldVal.toks m) =>
    match castTokVals m with
    | .error e => .error e
    | .ok m2 => .ok (setKey d "toks" (FieldVal.toks m2))

/-- castToks applied to a whole stream, failing at the first record whose
cast raises. -/
def castDocsAll : List Doc → Except String (List Doc)
  | [] => .ok []
  | d :: rest =>
    match castToks d with
    | .error e => .error e
    | .ok d2 =>
      match castDocsAll rest with
      | .error e => .error e
      | .ok ds => .ok (d2 :: ds)

/-- The refill step of _write_fifos: when the ready deque is empty it is
refilled, for more than one fifo by the select system call (modelled by the
oracle sched, consulted with a fresh index at each call), and in
single-threaded mode by the full fifo list. -/
def selectReady (n : Nat) (sched : Nat → List (Fin n)) (ready : List (Fin n))
    (k : Nat) : List (Fin n) :=
  if ready = [] then (if 1 < n then sched k else List.finRange n) else ready

/-- The distribution loop of _write_fifos (index.py lines 789-810): for each
record, refill the ready deque if it is empty, pop one fifo, cast the toks
values, and write the record to that fifo.  The result is the trace of writes
in order, as (fifo, record) pairs.  An empty select result (which the real
select call never returns, since it blocks) or a failing cast ends the trace
with no further writes. -/
def writeFifosAux (n : Nat) (sched : Nat → List (Fin n)) :
    List Doc → List (Fin n) → Nat → List (Fin n × Doc)
  | [], _, _ => []
  | doc :: rest, ready, k =>
    match selectReady n sched ready k with
    | [] => []
    | f :: rs =>
      match castToks doc with
      | .error _ => []
      | .ok d => (f, d) :: writeFifosAux n sched rest rs (if ready = [] then k + 1 else k)

/-- _write_fifos on a projected record stream: the loop starts with an
uninitialized (empty) ready deque. -/
def writeFifos (n : Nat) (sched : Nat → List (Fin n)) (docs : List Doc) :
    List (Fin n × Doc) :=
  writeFifosAux n sched docs [] 0

/-- The warnings _validate_doc_dict is expected to emit on a fully-present
record: one per non-docno meta field whose value exceeds its bound, in
configuration order. -/
def expectedWarnings (meta : List (String × Nat)) (d : Doc) : List MetaWarning :=
  meta.filterMap (fun kb =>
    match pyLookup d kb.1 with
    | some v => if kb.1 ≠ "docno" ∧ kb.2 < v.len then some ⟨kb.1, kb.2, v.len⟩ else none
    | none => none)

/-- The indexing regime enum IndexingType of index.py. -/
inductive IndexingType where
  | CLASSIC
  | SINGLEPASS
  | MEMORY
  deriving DecidableEq

/-- The state consulted and mutated by checkIndexExists and the index methods:
whether the indexer is in-memory (self.path is None), the overwrite flag,
the one-shot flag self.index_called, and whether the data.properties file
exists on disk. -/
structure GuardState where
  isMemory : Bool
  overwrite : Bool
  index_called : Bool
  fileExists : Bool
  deriving DecidableEq, Fintype

/-- The two errors checkIndexExists can raise. -/
inductive GuardErr where
  | indexExists
  | alreadyCalled
  deriving DecidableEq, Fintype

deriving instance DecidableEq for Except

/-- checkIndexExists (index.py lines 288-298): an in-memory indexer returns at
once; otherwise an existing index without overwrite permission raises, and
then a previous call of the index method raises. -/
def checkIndexExists (s : GuardState) : Option GuardErr :=
  if s.isMemory then none
  else if s.fileExists && !s.overwrite then some .indexExists
  else if s.index_called then some .alreadyCalled
  else none

/-- The guard-relevant effect of one successful _IterDictIndexer_fifo.index
call: the guard runs (via _setup), and a completed non-memory build leaves
data.properties on disk.  The fifo index method never sets index_called. -/
def fifoIndexStep (s : GuardState) : Except GuardErr GuardState :=
  match checkIndexExists s with
  | some e => .error e
  | none => .ok { s with fileExists := s.fileExists || !s.isMemory }

/-- The guard-relevant effect of one successful _IterDictIndexer_nofifo.index
call: as the fifo variant, but index_called is set to True. -/
def nofifoIndexStep (s : GuardState) : Except GuardErr GuardState :=
  match checkIndexExists s with
  | some e => .error e
  | none => .ok { s with fileExists := s.fileExists || !s.isMemory, index_called := true }

/-- The observable behaviour of one registered cleanup hook: it either
returns or raises the recorded exception. -/
inductive HookRes where
  | ok
  | raises (msg : String)
  deriving DecidableEq

/-- Running a hook list in registration order: returns how many hooks were
invoked and the first exception raised, which aborts the remaining hooks. -/
def runHookSeq : List HookRes → Nat × Option String
  | [] => (0, none)
  | .ok :: rest => ((runHookSeq rest).1 + 1, (runHookSeq rest).2)
  | .raises m :: _ => (1, some m)

/-- The hook-running epilogue of _IterDictIndexer_fifo.index (index.py lines
778-786): with no hooks nothing happens; otherwise the retrieval loading
profile is set to False, the index is loaded, the profile is restored to True,
and only then are the hooks run.  Result: (surfaced exception, final profile
flag, number of hooks invoked); the profile starts and therefore ends True. -/
def runCleanupHooksFifo (hooks : List HookRes) : Option String × Bool × Nat :=
  if hooks = [] then (none, true, 0)
  else ((runHookSeq hooks).2, true, (runHookSeq hooks).1)

/-- The hook-running epilogue of _IterDictIndexer_nofifo.index (index.py lines
693-700): the profile is set to False, the index loaded, the hooks run, and
the profile is restored to True only after the loop, with no try/finally: an
exception escaping a hook leaves the profile False. -/
def runCleanupHooksNofifo (hooks : List HookRes) : Option String × Bool × Nat :=
  if hooks = [] then (none, true, 0)
  else
    match (runHookSeq hooks).2 with
    | some m => (some m, false, (runHookSeq hooks).1)
    | none => (none, true, (runHookSeq hooks).1)

/-- The configuration recorded by _BaseIterDictIndexer.__init__ (the
attributes the claims are about). -/
structure IterDictConfig where
  indexType : IndexingType
  blocks : Bool
  overwrite : Bool
  threads : Nat
  text_attrs : List String
  meta : List (String × Nat)
  pretokenised : Bool
  fields : Bool
  stemmer : Option String
  stopwords : Option String
  deriving DecidableEq

/-- _BaseIterDictIndexer.__init__ (index.py lines 535-575): records the
options; in pretokenised mode it rejects fields=True, rejects a user-provided
text_attrs, disables the stemmer and the stopwords, and forces text_attrs to
the toks column. -/
def iterDictIndexerInit (indexType : IndexingType) (blocks overwrite : Bool)
    (threads : Nat) (text_attrs : List String) (meta : List (String × Nat))
    (pretokenised fields : Bool) (stemmer stopwords : Option String) :
    Except String IterDictConfig :=
  let base : IterDictConfig :=
    ⟨indexType, blocks, overwrite, threads, text_attrs, meta, pretokenised, fields,
      stemmer, stopwords⟩
  if pretokenised then
    if fields then .error "pretokenised not supported for fields"
    else if text_attrs ≠ ["text"] then .error "pretokenised ignores text_attrs"
    else .ok { base with stemmer := none, stopwords := none, text_attrs := ["toks"] }
  else .ok base

/-- The configuration checks _IterDictIndexer_fifo.index performs before any
record is distributed (index.py lines 732-736 together with
indexerAndMergerClasses line 373): memory indexing with blocks raises, the
thread count must be positive, and the memory indexer admits only one
thread. -/
def fifoIndexTimeChecks (cfg : IterDictConfig) : Except String Unit :=
  if cfg.indexType = IndexingType.MEMORY ∧ cfg.blocks = true then
    .error "Memory indexing with positions not yet implemented"
  else if cfg.threads = 0 then .error "threads must be positive"
  else if cfg.indexType = IndexingType.MEMORY ∧ cfg.threads ≠ 1 then
    .error "IterDictIndexer does not support multiple threads for IndexingType.MEMORY"
  else .ok ()

/-! ## Helper lemmas -/

theorem writeFifosAux_map_snd (n : Nat) (sched : Nat → List (Fin n)) (hn : 1 ≤ n)
    (hs : ∀ k, sched k ≠ []) :
    ∀ (docs : List Doc) (ready : List (Fin n)) (k : Nat) (ds : List Doc),
      castDocsAll docs = .ok ds →
      (writeFifosAux n sched docs ready k).map Prod.snd = ds := by
  intro docs
  induction docs with
  | nil =>
    intro ready k ds h
    simp only [castDocsAll, Except.ok.injEq] at h
    subst h
    simp [writeFifosAux]
  | cons doc rest ih =>
    intro ready k ds h
    cases hc : castToks doc with
    | error e => simp [castDocsAll, hc] at h
    | ok d2 =>
      cases hr : castDocsAll rest with
      | error e => simp [castDocsAll, hc, hr] at h
      | ok ds2 =>
        simp only [castDocsAll, hc, hr, Except.ok.injEq] at h
        subst h
        have hready : selectReady n sched ready k ≠ [] := by
          unfold selectReady
          split
          · split
            · exact hs k
            · rename_i h1 h2
              have hn1 : n = 1 := by omega
              subst hn1
              decide
          · rename_i hne
            exact hne
        obtain ⟨f, rs, hfr⟩ := List.exists_cons_of_ne_nil hready
        simp only [writeFifosAux, hfr, hc, List.map_cons, List.cons.injEq, true_and]
        exact ih rs (if ready = [] then k + 1 else k) ds2 hr

theorem castTokVals_all_int :
    ∀ (m m2 : List (String × TokVal)), castTokVals m = .ok m2 →
      ∀ kv ∈ m2, kv.2.isInt = true := by
  intro m
  induction m with
  | nil =>
    intro m2 h kv hkv
    simp only [castTokVals, Except.ok.injEq] at h
    subst h
    simp at hkv
  | cons kv0 rest ih =>
    intro m2 h kv hkv
    obtain ⟨k0, v0⟩ := kv0
    cases hp : pyInt v0 with
    | error e => simp [castTokVals, hp] at h
    | ok i =>
      cases hr : castTokVals rest with
      | error e => simp [castTokVals, hp, hr] at h
      | ok m3 =>
        simp only [castTokVals, hp, hr, Except.ok.injEq] at h
        subst h
        rcases List.mem_cons.mp hkv with h1 | h1
        · subst h1
          rfl
        · exact ih m3 hr kv h1

theorem pyLookup_setKey (d : Doc) (key : String) (v w : FieldVal)
    (h : pyLookup d key = some w) : pyLookup (setKey d key v) key = some v := by
  induction d with
  | nil => simp [pyLookup] at h
  | cons kv rest ih =>
    obtain ⟨k0, v0⟩ := kv
    by_cases hk : k0 = key
    · subst hk
      have hs2 : setKey ((k0, v0) :: rest) k0 v = (k0, v) :: setKey rest k0 v := by
        simp [setKey]
      rw [hs2]
      simp [pyLookup]
    · have hs2 : setKey ((k0, v0) :: rest) key v = (k0, v0) :: setKey rest key v := by
        simp [setKey, hk]
      rw [hs2]
      simp only [pyLookup, if_neg hk] at h ⊢
      exact ih h

theorem castToks_toks_int (x d : Doc) (m : List (String × TokVal))
    (hc : castToks x = .ok d) (hl : pyLookup d "toks" = some (FieldVal.toks m)) :
    ∀ kv ∈ m, kv.2.isInt = true := by
  unfold castToks at hc
  cases hx : pyLookup x "toks" with
  | none =>
    rw [hx] at hc
    simp only [Except.ok.injEq] at hc
    subst hc
    rw [hl] at hx
    cases hx
  | some fv =>
    cases fv with
    | str s => rw [hx] at hc; cases hc
    | toks m0 =>
      rw [hx] at hc
      change (match castTokVals m0 with
        | Except.error e => Except.error e
        | Except.ok m2 => Except.ok (setKey x "toks" (FieldVal.toks m2))) = Except.ok d at hc
      cases hcast : castTokVals m0 with
      | error e => rw [hcast] at hc; cases hc
      | ok m2 =>
        rw [hcast] at hc
        simp only [Except.ok.injEq] at hc
        subst hc
        have hset := pyLookup_setKey x "toks" (FieldVal.toks m2) (FieldVal.toks m0) hx
        rw [hset] at hl
        simp only [Option.some.injEq, FieldVal.toks.injEq] at hl
        subst hl
        exact castTokVals_all_int m0 _ hcast

theorem writeFifosAux_mem_cast (n : Nat) (sched : Nat → List (Fin n)) :
    ∀ (docs : List Doc) (ready : List (Fin n)) (k : Nat) (p : Fin n × Doc),
      p ∈ writeFifosAux n sched docs ready k →
      ∃ doc ∈ docs, castToks doc = .ok p.2 := by
  intro docs
  induction docs with
  | nil =>
    intro ready k p hp
    simp [writeFifosAux] at hp
  | cons doc rest ih =>
    intro ready k p hp
    rw [writeFifosAux] at hp
    cases hsel : selectReady n sched ready k with
    | nil => rw [hsel] at hp; simp at hp
    | cons f rs =>
      rw [hsel] at hp
      cases hc : castToks doc with
      | error e => rw [hc] at hp; simp at hp
      | ok d2 =>
        rw [hc] at hp
        rcases List.mem_cons.mp hp with h1 | h1
        · subst h1
          exact ⟨doc, List.mem_cons_self doc rest, hc⟩
        · obtain ⟨doc2, hmem, hc2⟩ := ih rs (if ready = [] then k + 1 else k) p h1
          exact ⟨doc2, List.mem_cons_of_mem doc hmem, hc2⟩

/-! ## Claim theorems -/

/-- C1: for every input stream of (projected) records and every thread count
N at least 1, given that select always reports at least one writable fifo and
every toks cast succeeds, the distribution loop of _write_fifos writes each
record to exactly one fifo exactly once — the write trace, projected to
records, is exactly the cast input stream in order — and when N = 1 every
write goes to the single fifo, so the single conduit receives the whole
stream in the original input order. -/
theorem write_fifos_exactly_once (n : Nat) (sched : Nat → List (Fin n))
    (docs ds : List Doc) (hn : 1 ≤ n) (hs : ∀ k, sched k ≠ [])
    (hcast : castDocsAll docs = .ok ds) :
    (writeFifos n sched docs).map Prod.snd = ds
    ∧ (n = 1 → ∀ p ∈ writeFifos n sched docs, (p.1 : Nat) = 0) := by
  constructor
  · exact writeFifosAux_map_snd n sched hn hs docs [] 0 ds hcast
  · intro h1 p _
    have hlt := p.1.isLt
    omega

/-- C1 witness: two records distributed over two fifos with a concrete
readiness schedule are each written exactly once, in order. -/
theorem write_fifos_exactly_once_w :
    (writeFifos 2 (fun _ => ([1, 0] : List (Fin 2)))
        [[("docno", FieldVal.str "d1")], [("docno", FieldVal.str "d2")]]).map Prod.snd
      = [[("docno", FieldVal.str "d1")], [("docno", FieldVal.str "d2")]] :=
  (write_fifos_exactly_once 2 (fun _ => ([1, 0] : List (Fin 2)))
    [[("docno", FieldVal.str "d1")], [("docno", FieldVal.str "d2")]]
    [[("docno", FieldVal.str "d1")], [("docno", FieldVal.str "d2")]]
    (by omega) (fun _ => List.cons_ne_nil _ _) (by decide)).1

/-- C9: every record the distributor hands to a conduit that carries a toks
token-frequency sub-mapping has only integer frequency values: the cast in
_write_fifos ran before the hand-off. -/
theorem write_fifos_toks_ints (n : Nat) (sched : Nat → List (Fin n))
    (docs : List Doc) (f : Fin n) (d : Doc) (m : List (String × TokVal))
    (hmem : (f, d) ∈ writeFifos n sched docs)
    (htoks : pyLookup d "toks" = some (FieldVal.toks m)) :
    ∀ kv ∈ m, kv.2.isInt = true := by
  obtain ⟨doc, _, hc⟩ := writeFifosAux_mem_cast n sched docs [] 0 (f, d) hmem
  exact castToks_toks_int doc d m hc htoks

/-- C9 witness: in a concrete pretokenised record written by the distributor,
the frequency of token a is an integer. -/
theorem write_fifos_toks_ints_w :
    (("a", TokVal.pyint 3) : String × TokVal).2.isInt = true :=
  write_fifos_toks_ints 1 (fun _ => [])
    [[("toks", FieldVal.toks [("a", TokVal.pyint 3), ("b", TokVal.pyint 7)])]]
    (0 : Fin 1)
    [("toks", FieldVal.toks [("a", TokVal.pyint 3), ("b", TokVal.pyint 7)])]
    [("a", TokVal.pyint 3), ("b", TokVal.pyint 7)]
    (by decide) (by decide) ("a", TokVal.pyint 3) (by decide)

/-- C10: on the empty input stream _filter_iterable performs no validation —
for every configuration it returns the empty projected sequence and cannot
raise any type, missing-field or length error. -/
theorem filter_iterable_empty (ta : List String) (meta : List (String × Nat)) :
    filter_iterable ta meta [] = .ok [] := rfl

/-- C7: constructing the indexer with pretokenised=True and fields=True
raises a configuration error at construction time, and a pretokenised
construction that is accepted (default text_attrs) disables the stemmer and
the stopword configuration and forces the text attributes to the toks
column. -/
theorem pretokenised_construction (it : IndexingType) (bl ov : Bool) (th : Nat)
    (ta : List String) (meta : List (String × Nat)) (st sw : Option String) :
    iterDictIndexerInit it bl ov th ta meta true true st sw
      = .error "pretokenised not supported for fields"
    ∧ ∃ cfg, iterDictIndexerInit it bl ov th ["text"] meta true false st sw = .ok cfg
        ∧ cfg.stemmer = none ∧ cfg.stopwords = none ∧ cfg.text_attrs = ["toks"] := by
  constructor
  · simp [iterDictIndexerInit]
  · refine ⟨⟨it, bl, ov, th, ["toks"], meta, true, false, none, none⟩, ?_, rfl, rfl, rfl⟩
    simp [iterDictIndexerInit]

theorem validateMeta_missing (d : Doc) :
    ∀ meta : List (String × Nat),
      (∃ kb ∈ meta, pyLookup d kb.1 = none) →
      (∀ kb ∈ meta, kb.1 = "docno" → ∀ v, pyLookup d kb.1 = some v → v.len ≤ kb.2) →
      ∃ k ks, (validateMeta meta d).2 = some (ValErr.missingField k ks) := by
  intro meta
  induction meta with
  | nil =>
    rintro ⟨kb, hkb, _⟩ _
    simp at hkb
  | cons kb0 rest ih =>
    rintro ⟨kb, hkb, hnone⟩ hid
    obtain ⟨k0, b0⟩ := kb0
    cases h0 : pyLookup d k0 with
    | none =>
      exact ⟨k0, pyKeys d, by simp [validateMeta, h0]⟩
    | some v =>
      have hkbrest : kb ∈ rest := by
        rcases List.mem_cons.mp hkb with h1 | h1
        · subst h1
          rw [h0] at hnone
          cases hnone
        · exact h1
      have hrec := ih ⟨kb, hkbrest, hnone⟩
        (fun kb2 h2 => hid kb2 (List.mem_cons_of_mem _ h2))
      by_cases hlen : b0 < v.len
      · by_cases hdoc : k0 = "docno"
        · subst hdoc
          have hle := hid ("docno", b0) (List.mem_cons_self _ _) rfl v h0
          omega
        · simpa [validateMeta, h0, hlen, hdoc] using hrec
      · simpa [validateMeta, h0, hlen] using hrec

theorem validateMeta_docno_fatal (d : Doc) :
    ∀ (meta : List (String × Nat)) (b : Nat) (v : FieldVal),
      (∀ kb ∈ meta, (pyLookup d kb.1).isSome = true) →
      (meta.map Prod.fst).Nodup →
      ("docno", b) ∈ meta → pyLookup d "docno" = some v → b < v.len →
      (validateMeta meta d).2 = some (ValErr.idTooLong "docno" b v.len) := by
  intro meta
  induction meta with
  | nil =>
    intro b v _ _ hmem
    simp at hmem
  | cons kb0 rest ih =>
    intro b v hpres hnodup hmem hdocno hlen
    obtain ⟨k0, b0⟩ := kb0
    obtain ⟨v0, hv0⟩ := Option.isSome_iff_exists.mp (hpres (k0, b0) (List.mem_cons_self _ _))
    rcases List.mem_cons.mp hmem with h1 | h1
    · injection h1.symm with hk hb
      subst hk
      subst hb
      rw [hdocno] at hv0
      injection hv0 with hv
      subst hv
      simp [validateMeta, hdocno, hlen]
    · have hnodup2 : (k0 :: rest.map Prod.fst).Nodup := hnodup
      have hdmem : "docno" ∈ rest.map Prod.fst :=
        List.mem_map.mpr ⟨("docno", b), h1, rfl⟩
      have hne : k0 ≠ "docno" := fun hk => (List.nodup_cons.mp hnodup2).1 (hk ▸ hdmem)
      have hrec := ih b v (fun kb h => hpres kb (List.mem_cons_of_mem _ h))
        (List.nodup_cons.mp hnodup2).2 h1 hdocno hlen
      by_cases hlen0 : b0 < v0.len
      · simpa [validateMeta, hv0, hlen0, hne] using hrec
      · simpa [validateMeta, hv0, hlen0] using hrec

theorem validateMeta_warnings (d : Doc) :
    ∀ meta : List (String × Nat),
      (∀ kb ∈ meta, (pyLookup d kb.1).isSome = true) →
      (∀ kb ∈ meta, kb.1 = "docno" → ∀ v, pyLookup d kb.1 = some v → v.len ≤ kb.2) →
      validateMeta meta d = (expectedWarnings meta d, none) := by
  intro meta
  induction meta with
  | nil =>
    intro _ _
    simp [validateMeta, expectedWarnings]
  | cons kb0 rest ih =>
    intro hpres hid
    obtain ⟨k0, b0⟩ := kb0
    obtain ⟨v0, hv0⟩ := Option.isSome_iff_exists.mp (hpres (k0, b0) (List.mem_cons_self _ _))
    have hrec := ih (fun kb h => hpres kb (List.mem_cons_of_mem _ h))
      (fun kb h => hid kb (List.mem_cons_of_mem _ h))
    by_cases hlen : b0 < v0.len
    · by_cases hdoc : k0 = "docno"
      · subst hdoc
        have hle := hid ("docno", b0) (List.mem_cons_self _ _) rfl v0 hv0
        omega
      · simp [validateMeta, expectedWarnings, List.filterMap_cons, hv0, hlen, hdoc, hrec]
    · simp [validateMeta, expectedWarnings, List.filterMap_cons, hv0, hlen, hrec]

theorem projectFields_ok (d : Doc) :
    ∀ cols : List String, (∀ f ∈ cols, (pyLookup d f).isSome = true) →
      ∃ pd, projectFields d cols = .ok pd
        ∧ pyKeys pd = cols
        ∧ (∀ f v, pyLookup pd f = some v → pyLookup d f = some v)
        ∧ (∀ f, f ∉ cols → pyLookup pd f = none) := by
  intro cols
  induction cols with
  | nil =>
    intro _
    exact ⟨[], rfl, rfl, fun f v hv => by simp [pyLookup] at hv, fun f _ => rfl⟩
  | cons c rest ih =>
    intro hpres
    obtain ⟨v, hv⟩ := Option.isSome_iff_exists.mp (hpres c (List.mem_cons_self _ _))
    obtain ⟨pd, hpd, hkeys, hvals, hnone⟩ := ih (fun f hf => hpres f (List.mem_cons_of_mem _ hf))
    refine ⟨(c, v) :: pd, ?_, ?_, ?_, ?_⟩
    · simp [projectFields, hv, hpd]
    · simp only [pyKeys, List.map_cons]
      simp only [pyKeys] at hkeys
      rw [hkeys]
    · intro f w hw
      by_cases hf : c = f
      · subst hf
        rw [hv]
        simpa [pyLookup] using hw
      · simp only [pyLookup, if_neg hf] at hw
        exact hvals f w hw
    · intro f hf
      have hfc : ¬(c = f) := fun h => hf (h ▸ List.mem_cons_self c rest)
      simp only [pyLookup, if_neg hfc]
      exact hnone f (fun h => hf (List.mem_cons_of_mem _ h))

theorem runHookSeq_append_ok (m : String) (post : List HookRes) :
    ∀ pre : List HookRes, (∀ h ∈ pre, h = HookRes.ok) →
      runHookSeq (pre ++ HookRes.raises m :: post) = (pre.length + 1, some m) := by
  intro pre
  induction pre with
  | nil =>
    intro _
    simp [runHookSeq]
  | cons h0 tl ih =>
    intro hpre
    have h0ok := hpre h0 (List.mem_cons_self _ _)
    subst h0ok
    have hrec := ih (fun h hh => hpre h (List.mem_cons_of_mem _ hh))
    simp [runHookSeq, hrec]

/-- C2 counterexample: a first record that lacks the configured meta key
title while its docno exceeds the configured docno bound makes
_filter_iterable raise the identifier-too-long error, not the missing-field
error, because the docno length check runs first. -/
theorem missing_field_counterexample :
    filter_iterable ["text"] [("docno", 1), ("title", 20)]
        [PyObj.dict [("docno", FieldVal.str "dd")]]
      = .error (ValErr.idTooLong "docno" 1 2)
    ∧ ∀ k ks, ValErr.idTooLong "docno" 1 2 ≠ ValErr.missingField k ks := by
  refine ⟨by decide, ?_⟩
  intro k ks h
  cases h

/-- C2 (amended): for every non-empty input stream whose first record is a
dict lacking at least one configured metadata key, provided the identifier
field does not itself exceed its bound (which would raise the fatal length
error first), _filter_iterable raises a missing-field error at call time —
the error is the value of the call itself, before any element of the
projected sequence exists — having consumed at most one record from the
source (the spy peek). -/
theorem missing_field_error_at_call (ta : List String) (meta : List (String × Nat))
    (dd : Doc) (rest : List PyObj)
    (hmiss : ∃ kb ∈ meta, pyLookup dd kb.1 = none)
    (hid : ∀ kb ∈ meta, kb.1 = "docno" → ∀ v, pyLookup dd kb.1 = some v → v.len ≤ kb.2) :
    (∃ k ks, filter_iterable ta meta (PyObj.dict dd :: rest)
        = .error (ValErr.missingField k ks))
    ∧ spyConsumed (PyObj.dict dd :: rest) ≤ 1 := by
  obtain ⟨k, ks, h⟩ := validateMeta_missing dd meta hmiss hid
  refine ⟨⟨k, ks, ?_⟩, by simp [spyConsumed]⟩
  simp [filter_iterable, validate_doc_dict, h]

/-- C2 witness: a concrete stream whose first record lacks the configured
title key makes the _filter_iterable call itself fail, with at most one
record consumed. -/
theorem missing_field_error_at_call_w :
    (filter_iterable ["text"] [("title", 5)]
        [PyObj.dict [("docno", FieldVal.str "d1")]]).isOk = false
    ∧ spyConsumed [PyObj.dict [("docno", FieldVal.str "d1")]] ≤ 1 := by
  have hmain := missing_field_error_at_call ["text"] [("title", 5)]
    [("docno", FieldVal.str "d1")] []
    ⟨("title", 5), by decide, by decide⟩
    (by
      intro kb hkb hdoc v hv
      simp only [List.mem_singleton] at hkb
      subst hkb
      simp at hdoc)
  obtain ⟨⟨k, ks, h⟩, hs⟩ := hmain
  exact ⟨by rw [h]; rfl, hs⟩

/-- C3 counterexample: with meta mapping docno to bound 1 and title to bound
1, and a first record exceeding both, validation raises the docno error and
emits no warning at all for title, contradicting the claim that every
exceeding non-identifier field gets a warning. -/
theorem meta_length_counterexample :
    validate_doc_dict [("docno", 1), ("title", 1)]
        (PyObj.dict [("docno", FieldVal.str "dd"), ("title", FieldVal.str "tt")])
      = ([], some (ValErr.idTooLong "docno" 1 2)) := by decide

/-- C3 (amended): during validation of a first record containing every
configured field (with no duplicate configuration keys): if the docno value
exceeds its bound, validation raises the identifier-too-long fatal error
(fields configured after docno are then not checked and get no warning); if
the docno value is within its bound, validation raises nothing and emits
exactly one warning per exceeding non-identifier field, naming the field,
the requested bound and the actual length, so indexing proceeds. -/
theorem meta_length_policy (meta : List (String × Nat)) (d : Doc)
    (hpres : ∀ kb ∈ meta, (pyLookup d kb.1).isSome = true)
    (hnodup : (meta.map Prod.fst).Nodup) :
    (∀ b v, ("docno", b) ∈ meta → pyLookup d "docno" = some v → b < v.len →
        (validate_doc_dict meta (PyObj.dict d)).2
          = some (ValErr.idTooLong "docno" b v.len))
    ∧ ((∀ kb ∈ meta, kb.1 = "docno" → ∀ v, pyLookup d kb.1 = some v → v.len ≤ kb.2) →
        validate_doc_dict meta (PyObj.dict d) = (expectedWarnings meta d, none)) := by
  constructor
  · intro b v hmem hlook hlen
    exact validateMeta_docno_fatal d meta b v hpres hnodup hmem hlook hlen
  · intro hid
    exact validateMeta_warnings d meta hpres hid

/-- C3 witness: a concrete record whose docno exceeds its configured bound
makes validation raise the identifier-too-long error. -/
theorem meta_length_policy_w :
    (validate_doc_dict [("docno", 1), ("x", 3)]
        (PyObj.dict [("docno", FieldVal.str "dd"), ("x", FieldVal.str "y")])).2
      = some (ValErr.idTooLong "docno" 1 2) :=
  (meta_length_policy [("docno", 1), ("x", 3)]
      [("docno", FieldVal.str "dd"), ("x", FieldVal.str "y")]
      (by decide) (by decide)).1 1 (FieldVal.str "dd") (by decide) (by decide) (by decide)

/-- C4 counterexample: in the nofifo hook runner, a first hook that raises
aborts the second hook and surfaces the exception, but leaves the index
marked not-for-retrieval (profile flag False), contradicting the claimed
restoration regardless of hook outcome. -/
theorem cleanup_hook_counterexample :
    runCleanupHooksNofifo [HookRes.raises "boom", HookRes.ok]
      = (some "boom", false, 1) := by decide

/-- C4 (amended): both hook runners invoke hooks in registration order and a
raising hook aborts the remaining hooks and surfaces its exception; the fifo
runner leaves the index marked ready-for-retrieval (the status is restored
before the hooks run), while the nofifo runner restores the status only after
all hooks succeed, so a raising hook leaves the index marked
not-for-retrieval. -/
theorem cleanup_hook_runner (pre post : List HookRes) (m : String)
    (hpre : ∀ h ∈ pre, h = HookRes.ok) :
    runCleanupHooksFifo (pre ++ HookRes.raises m :: post)
      = (some m, true, pre.length + 1)
    ∧ runCleanupHooksNofifo (pre ++ HookRes.raises m :: post)
      = (some m, false, pre.length + 1) := by
  have hne : pre ++ HookRes.raises m :: post ≠ [] := by simp
  have hrun := runHookSeq_append_ok m post pre hpre
  constructor
  · simp [runCleanupHooksFifo, hne, hrun]
  · simp [runCleanupHooksNofifo, hne, hrun]

/-- C4 witness: with two hooks of which the first raises, neither runner runs
the second hook, both surface the exception, the fifo runner ends
ready-for-retrieval and the nofifo runner does not. -/
theorem cleanup_hook_runner_w :
    runCleanupHooksFifo (([] : List HookRes) ++ HookRes.raises "err" :: [HookRes.ok])
      = (some "err", true, ([] : List HookRes).length + 1)
    ∧ runCleanupHooksNofifo (([] : List HookRes) ++ HookRes.raises "err" :: [HookRes.ok])
      = (some "err", false, ([] : List HookRes).length + 1) :=
  cleanup_hook_runner [] [HookRes.ok] "err" (by simp)

/-- C5 counterexample: a fifo indexer with a target path and overwrite=True
completes a first build and then accepts a second build with no error at all
(the fifo index method never sets index_called, and the existing-file check
is disabled by overwrite). -/
theorem second_build_counterexample :
    fifoIndexStep ⟨false, true, false, false⟩ = .ok ⟨false, true, false, true⟩
    ∧ fifoIndexStep ⟨false, true, false, true⟩ = .ok ⟨false, true, false, true⟩ :=
  ⟨rfl, rfl⟩

/-- C5 (amended): for a non-memory indexer, a second build on the same nofifo
instance always raises (the already-called guard, or the index-exists guard
when overwrite is not granted), and a second build on the same fifo instance
raises only the index-exists error and only when overwrite is not granted;
with overwrite granted, or with the in-memory regime, a second fifo build is
accepted. -/
theorem second_build_guard :
    ∀ (ov ic fe : Bool) (s2 : GuardState),
      (nofifoIndexStep ⟨false, ov, ic, fe⟩ = .ok s2 →
        nofifoIndexStep s2 = .error GuardErr.alreadyCalled
        ∨ nofifoIndexStep s2 = .error GuardErr.indexExists)
      ∧ (ov = false → fifoIndexStep ⟨false, ov, ic, fe⟩ = .ok s2 →
        fifoIndexStep s2 = .error GuardErr.indexExists) := by decide

/-- C5 witness: after a completed nofifo build, the second build attempt
raises one of the two guard errors. -/
theorem second_build_guard_w :
    nofifoIndexStep ⟨false, false, true, true⟩ = .error GuardErr.alreadyCalled
    ∨ nofifoIndexStep ⟨false, false, true, true⟩ = .error GuardErr.indexExists :=
  (second_build_guard false false false ⟨false, false, true, true⟩).1 rfl

/-- C6 counterexample: constructing an IterDictIndexer with the in-memory
regime and threads=2 succeeds (no configuration error at construction time);
the combination is rejected only by the index-time checks. -/
theorem memory_multithread_counterexample :
    iterDictIndexerInit IndexingType.MEMORY false false 2 ["text"] [("docno", 20)]
        false false (some "PorterStemmer") (some "terrier")
      = .ok ⟨IndexingType.MEMORY, false, false, 2, ["text"], [("docno", 20)], false, false,
          some "PorterStemmer", some "terrier"⟩
    ∧ fifoIndexTimeChecks ⟨IndexingType.MEMORY, false, false, 2, ["text"], [("docno", 20)],
          false, false, some "PorterStemmer", some "terrier"⟩
      = .error "IterDictIndexer does not support multiple threads for IndexingType.MEMORY" :=
  ⟨rfl, rfl⟩

/-- C6 (amended): the in-memory regime combined with a thread count greater
than one passes construction and fails only at index time, via the assertion
checks the fifo index method runs before distributing any record. -/
theorem memory_multithread_index_time (bl ov : Bool) (th : Nat)
    (ta : List String) (meta : List (String × Nat)) (ptok fl : Bool)
    (st sw : Option String) (cfg : IterDictConfig)
    (hinit : iterDictIndexerInit IndexingType.MEMORY bl ov th ta meta ptok fl st sw
      = .ok cfg)
    (hth : 1 < th) :
    ∃ e, fifoIndexTimeChecks cfg = .error e := by
  have hfields : cfg.indexType = IndexingType.MEMORY ∧ cfg.threads = th := by
    simp only [iterDictIndexerInit] at hinit
    split at hinit
    · split at hinit
      · cases hinit
      · split at hinit
        · cases hinit
        · simp only [Except.ok.injEq] at hinit
          subst hinit
          exact ⟨rfl, rfl⟩
    · simp only [Except.ok.injEq] at hinit
      subst hinit
      exact ⟨rfl, rfl⟩
  obtain ⟨hT, hth2⟩ := hfields
  unfold fifoIndexTimeChecks
  split
  · exact ⟨_, rfl⟩
  · split
    · exact ⟨_, rfl⟩
    · split
      · exact ⟨_, rfl⟩
      · rename_i h1 h2 h3
        exact absurd ⟨hT, by omega⟩ h3

/-- C6 witness: the concrete in-memory two-thread configuration accepted at
construction is rejected by the index-time checks. -/
theorem memory_multithread_index_time_w :
    (fifoIndexTimeChecks ⟨IndexingType.MEMORY, false, false, 2, ["text"],
        [("docno", 20)], false, false, none, none⟩).isOk = false := by
  obtain ⟨e, he⟩ := memory_multithread_index_time false false 2 ["text"] [("docno", 20)]
    false false none none
    ⟨IndexingType.MEMORY, false, false, 2, ["text"], [("docno", 20)], false, false,
      none, none⟩
    rfl (by omega)
  rw [he]
  rfl

/-- C8: when _filter_iterable succeeds, the projected sequence is the
element-wise projection of the input stream — one output per input, in the
original order — and, for every dict record containing all configured
columns, the projected record has exactly the key set
docno, text attributes and metadata fields (every other key discarded), with
the values taken from the record. -/
theorem filter_iterable_projection (ta : List String) (meta : List (String × Nat))
    (docs : List PyObj) (out : List (Except String Doc))
    (hok : filter_iterable ta meta docs = .ok out) :
    out = docs.map (projectDoc (allCols ta meta))
    ∧ ∀ o ∈ docs, ∀ dd, o = PyObj.dict dd →
        (∀ f ∈ allCols ta meta, (pyLookup dd f).isSome = true) →
        ∃ pd, projectDoc (allCols ta meta) o = .ok pd
          ∧ pyKeys pd = allCols ta meta
          ∧ (∀ f, f ∈ pyKeys pd ↔ (f = "docno" ∨ f ∈ ta ∨ f ∈ meta.map Prod.fst))
          ∧ (∀ f v, pyLookup pd f = some v → pyLookup dd f = some v)
          ∧ (∀ f, f ∉ allCols ta meta → pyLookup pd f = none) := by
  constructor
  · cases docs with
    | nil =>
      simp only [filter_iterable, Except.ok.injEq] at hok
      subst hok
      rfl
    | cons d0 rest =>
      cases hval : (validate_doc_dict meta d0).2 with
      | some e => simp [filter_iterable, hval] at hok
      | none =>
        simp only [filter_iterable, hval, Except.ok.injEq] at hok
        exact hok.symm
  · intro o ho dd hdd hpres
    subst hdd
    obtain ⟨pd, hpd, hkeys, hvals, hnone⟩ := projectFields_ok dd (allCols ta meta) hpres
    refine ⟨pd, hpd, hkeys, ?_, hvals, hnone⟩
    intro f
    rw [hkeys]
    simp [allCols, List.mem_dedup, List.mem_cons, List.mem_append]

/-- C8 witness: a concrete record with an extra junk key is projected to
exactly the docno and text columns (the junk key is discarded), in one-to-one
correspondence with the input. -/
theorem filter_iterable_projection_w :
    [Except.ok [("text", FieldVal.str "a b"), ("docno", FieldVal.str "d1")]]
      = [PyObj.dict [("docno", FieldVal.str "d1"), ("text", FieldVal.str "a b"),
          ("junk", FieldVal.str "x")]].map (projectDoc (allCols ["text"] [("docno", 20)]))
    ∧ pyKeys [("text", FieldVal.str "a b"), ("docno", FieldVal.str "d1")]
        = allCols ["text"] [("docno", 20)]
    ∧ pyLookup [("text", FieldVal.str "a b"), ("docno", FieldVal.str "d1")] "junk"
        = none := by
  have hmain := filter_iterable_projection ["text"] [("docno", 20)]
    [PyObj.dict [("docno", FieldVal.str "d1"), ("text", FieldVal.str "a b"),
      ("junk", FieldVal.str "x")]]
    [Except.ok [("text", FieldVal.str "a b"), ("docno", FieldVal.str "d1")]]
    (by decide)
  obtain ⟨h1, h2⟩ := hmain
  obtain ⟨pd, hpd, hkeys, hiff, hvals, hnone⟩ :=
    h2 (PyObj.dict [("docno", FieldVal.str "d1"), ("text", FieldVal.str "a b"),
        ("junk", FieldVal.str "x")])
      (by decide) _ rfl (by decide)
  have hpd0 : pd = [("text", FieldVal.str "a b"), ("docno", FieldVal.str "d1")] := by
    have hok : Except.ok (ε := String) pd
        = Except.ok [("text", FieldVal.str "a b"), ("docno", FieldVal.str "d1")] := by
      rw [← hpd]
      decide
    exact Except.ok.inj hok
  subst hpd0
  exact ⟨h1, hkeys, hnone "junk" (by decide)⟩

end PyTerrier
